import Mathlib

set_option maxRecDepth 8000

/-!
Shallow embedding of the uGit version-control program (source files
`ugit/data.py`, `ugit/base.py`, `ugit/diff.py`, `ugit/remote.py`) and proofs
settling the specification claims about it.

Modelling conventions:
* Python text is `List Char`; raw bytes are `List Nat`.
* The object store (`.ugit/objects/`) and the ref files are association
  lists; a file write prepends its binding, and `lookupAssoc` returns the
  first binding, so prepending models overwriting.
* Python functions that can raise return `Except Str`; a function that
  mutates the repository returns the mutated state together with the
  outcome, because a raised exception leaves the earlier mutations in place.
* Unbounded recursion and graph walks over arbitrary stores take an explicit
  fuel argument; exhausted fuel (`none`, or the distinguished error value
  `fuelOut`) means the Python run would still be recursing after that many
  steps.  Generators are evaluated eagerly.
* The SHA-1 digest is a parameter `sha1 : Bytes → Str` of the embedding.
-/

namespace UGit

/-- Python text, modelled as a list of characters. -/
abbrev Str := List Char

/-- Raw bytes, each entry intended to be < 256. -/
abbrev Bytes := List Nat

/-- Coerce a Lean string literal into the text model. -/
def str (s : String) : Str := s.data

/-- Association list keyed by text: models both a Python dict and a directory
of files.  The first binding of a key wins. -/
abbrev Assoc (α : Type) := List (Str × α)

/-- Dictionary / file lookup: the first binding of the key. -/
def lookupAssoc {α : Type} : Assoc α → Str → Option α
  | [], _ => none
  | (k, v) :: rest, key => if k = key then some v else lookupAssoc rest key

/-- UTF-8 encoding of program text (`str.encode()`); all text handled by
uGit is ASCII, on which UTF-8 is the identity on code points. -/
def encodeT (s : Str) : Bytes := s.map Char.toNat

/-- Decoding of stored bytes back to text (`bytes.decode()`). -/
def decodeB (b : Bytes) : Str := b.map Char.ofNat

/-- Truthiness of a Python optional string: `None` and `''` are falsy. -/
def truthyO : Option Str → Bool
  | none => false
  | some [] => false
  | some (_ :: _) => true

/-- Python whitespace characters recognised by `str.strip()`. -/
def isPyWs (c : Char) : Bool :=
  (c == ' ') || (c == '\t') || (c == '\n') || (c == '\r') ||
    (c == Char.ofNat 11) || (c == Char.ofNat 12)

/-- Python `str.strip()`. -/
def pyStrip (s : Str) : Str :=
  ((s.dropWhile isPyWs).reverse.dropWhile isPyWs).reverse

/-- Everything after the first occurrence of `c` (`s.split(c, 1)[1]` when the
separator occurs; `[]` otherwise). -/
def afterFirst (c : Char) : Str → Str
  | [] => []
  | x :: rest => if x = c then rest else afterFirst c rest

/-- Everything before the first occurrence of `c` (`s.split(c, 1)[0]`). -/
def beforeFirst (c : Char) (s : Str) : Str := s.takeWhile (fun x => !(x == c))

/-- Membership of a character in a text. -/
def containsC (s : Str) (c : Char) : Bool := s.any (fun x => x == c)

/-- Error value reporting that the modelled Python run exhausted its fuel,
i.e. would still be recursing. -/
def fuelOut : Str := str "NONTERMINATION"

/-- Decidable equality for `Except`, used to evaluate concrete runs. -/
instance {ε α : Type} [DecidableEq ε] [DecidableEq α] :
    DecidableEq (Except ε α) := fun x y =>
  match x, y with
  | .ok a, .ok b =>
      if h : a = b then .isTrue (by rw [h]) else .isFalse (by simp [h])
  | .error a, .error b =>
      if h : a = b then .isTrue (by rw [h]) else .isFalse (by simp [h])
  | .ok _, .error _ => .isFalse (by simp)
  | .error _, .ok _ => .isFalse (by simp)

/-- The object store: oid → raw file bytes at `objects/<oid>`. -/
abbrev Store := Assoc Bytes

/-- The ref files: path under `.ugit/` → file contents. -/
abbrev Refs := Assoc Str

/-- Object kinds accepted by `data.py`. -/
inductive Kind where
  | blob
  | tree
  | commit
deriving DecidableEq

/-- The type tag written in front of a stored object. -/
def kindStr : Kind → Str
  | .blob => str "blob"
  | .tree => str "tree"
  | .commit => str "commit"

/-- data.hash_object: prepend the type tag and a NUL byte to the payload,
digest it, store the bytes at `objects/<oid>`, return the oid. -/
def hashObject (sha1 : Bytes → Str) (store : Store) (dat : Bytes) (ty : Kind) :
    Str × Store :=
  let obj := encodeT (kindStr ty) ++ 0 :: dat
  let oid := sha1 obj
  (oid, (oid, obj) :: store)

/-- bytes.partition at the first NUL byte, dropping the separator: returns
(head, tail); when no NUL occurs the whole input is the head and the tail is
empty, exactly as in Python. -/
def partNul : Bytes → Bytes × Bytes
  | [] => ([], [])
  | b :: rest =>
      if b = 0 then ([], rest)
      else
        let p := partNul rest
        (b :: p.1, p.2)

/-- data.get_object: read `objects/<oid>`, split the type tag off at the
first NUL, check it against the expected kind, return the payload. -/
def getObject (store : Store) (oid : Str) (expected : Kind) : Except Str Bytes :=
  match lookupAssoc store oid with
  | none => .error (str "FileNotFoundError")
  | some obj =>
      let p := partNul obj
      if decodeB p.1 = kindStr expected then .ok p.2
      else .error (str "AssertionError: object type mismatch")

/-- data.object_exists. -/
def objectExists (store : Store) (oid : Str) : Bool :=
  (lookupAssoc store oid).isSome

/-- Result of reading a ref file (`data.RefValue`). -/
structure RefValue where
  symbolic : Bool
  value : Option Str
deriving DecidableEq

/-- data._get_ref_internal.  The source recurses with no depth bound when
dereferencing a symbolic ref; the embedding spends one unit of fuel per step
and returns `none` when the fuel runs out (the source would still be
recursing at that depth). -/
def getRefInternal (refs : Refs) : Nat → Str → Bool → Option (Str × RefValue)
  | 0, _, _ => none
  | Nat.succ fuel, ref, deref =>
    match (lookupAssoc refs ref).map pyStrip with
    | none => some (ref, ⟨false, none⟩)
    | some v =>
      if !v.isEmpty && (str "ref: ").isPrefixOf v then
        let target := pyStrip (afterFirst ' ' v)
        if deref then getRefInternal refs fuel target true
        else some (ref, ⟨true, some target⟩)
      else some (ref, ⟨false, some v⟩)

/-- data.get_ref. -/
def getRef (refs : Refs) (fuel : Nat) (ref : Str) (deref : Bool) :
    Option RefValue :=
  (getRefInternal refs fuel ref deref).map Prod.snd

/-- data.update_ref: resolve the ref name (dereferencing when asked), assert
the new value is truthy, then write the ref file. -/
def updateRef (refs : Refs) (fuel : Nat) (ref : Str) (v : RefValue)
    (deref : Bool) : Refs × Except Str Unit :=
  match getRefInternal refs fuel ref deref with
  | none => (refs, .error fuelOut)
  | some p =>
    match v.value with
    | none => (refs, .error (str "AssertionError"))
    | some val =>
      if val.isEmpty then (refs, .error (str "AssertionError"))
      else
        let content := if v.symbolic then str "ref: " ++ val else val
        ((p.1, content) :: refs, .ok ())

/-- data.delete_ref: the source evaluates the f-string
`f'\x7bGIT_DIR/\x7bref\x7d\x7d'`, i.e. the expression `GIT_DIR / set([ref])`,
which raises TypeError before anything is removed. -/
def deleteRef (refs : Refs) (fuel : Nat) (ref : Str) (deref : Bool) :
    Refs × Except Str Unit :=
  match getRefInternal refs fuel ref deref with
  | none => (refs, .error fuelOut)
  | some _ =>
      (refs, .error (str "TypeError: unsupported operand for /: str and set"))

/-- The hexadecimal digits accepted by `string.hexdigits`. -/
def hexChars : Str := str "0123456789abcdefABCDEF"

/-- True when every character of the name is a hex digit. -/
def isHexName (name : Str) : Bool :=
  name.all (fun c => hexChars.any (fun h => h == c))

/-- Helper for base.get_oid: walk the candidate ref names in order and
return the (possibly `None`) dereferenced value of the first candidate whose
non-dereferenced value is truthy; `none` when no candidate matches. -/
def resolveFirst (refs : Refs) (fuel : Nat) :
    List Str → Except Str (Option (Option Str))
  | [] => .ok none
  | r :: rest =>
    match getRef refs fuel r false with
    | none => .error fuelOut
    | some rv =>
      if truthyO rv.value then
        match getRef refs fuel r true with
        | none => .error fuelOut
        | some rv2 => .ok (some rv2.value)
      else resolveFirst refs fuel rest

/-- base.get_oid: `@` aliases HEAD; the source then tries, in order,
`name`, `refs/name`, `refs/tags/name` and `refs/tags/name` a second time
(the candidate list in base.py lists `refs/tags/` twice and never lists
`refs/heads/`); failing that, a 40-hex-digit name is returned literally,
and otherwise the assertion `Unknown name` fires. -/
def getOid (refs : Refs) (fuel : Nat) (name0 : Str) : Except Str (Option Str) :=
  let name := if name0 = str "@" then str "HEAD" else name0
  let tries := [name, str "refs/" ++ name, str "refs/tags/" ++ name,
    str "refs/tags/" ++ name]
  match resolveFirst refs fuel tries with
  | .error e => .error e
  | .ok (some v) => .ok v
  | .ok none =>
    if name.length = 40 && isHexName name then .ok (some name)
    else .error (str "AssertionError: Unknown name: " ++ name)

/-- Python `str.splitlines()` for texts whose only line separator is `\n`
(the only separator uGit ever writes): like splitting on `\n`, except that
a trailing newline does not produce a final empty line. -/
def splitNlAux : Str → Str → List Str
  | [], acc => [acc.reverse]
  | c :: rest, acc =>
      if c = '\n' then acc.reverse :: splitNlAux rest []
      else splitNlAux rest (c :: acc)

/-- Python `str.split('\n')`. -/
def splitOnNl (s : Str) : List Str := splitNlAux s []

/-- Python `str.splitlines()` (newline-only case). -/
def splitlinesT (s : Str) : List Str :=
  if s.isEmpty then []
  else
    let p := splitOnNl s
    if p.getLast? = some [] then p.dropLast else p

/-- Python `'\n'.join(lines)`. -/
def joinNl : List Str → Str
  | [] => []
  | [x] => x
  | x :: rest => x ++ '\n' :: joinNl rest

/-- Python `line.split(' ', 1)` unpacked into two names: fails (ValueError)
when the line contains no space. -/
def splitKV (line : Str) : Option (Str × Str) :=
  if containsC line ' ' then some (beforeFirst ' ' line, afterFirst ' ' line)
  else none

/-- Parsed commit object (`base.Commit`). -/
structure Commit where
  tree : Str
  parents : List Str
  message : Str
deriving DecidableEq

/-- Header loop of base.get_commit: each non-blank line is split at the
first space; `tree` overwrites the tree field, `parent` appends, any other
key fires the `Unknown commit field` assertion.  If the loop ends without a
`tree` header the source raises NameError when building the namedtuple. -/
def parseHeaders : List Str → Option Str → List Str → Str → Except Str Commit
  | [], none, _, _ => .error (str "NameError: name tree is not defined")
  | [], some t, ps, msg => .ok ⟨t, ps, msg⟩
  | l :: rest, t, ps, msg =>
    match splitKV l with
    | none => .error (str "ValueError: not enough values to unpack")
    | some (k, v) =>
      if k = str "tree" then parseHeaders rest (some v) ps msg
      else if k = str "parent" then parseHeaders rest t (ps ++ [v]) msg
      else .error (str "AssertionError: Unknown commit field: " ++ k)

/-- base.get_commit: decode the commit object, take header lines up to the
first blank line (the blank line itself is consumed by the `takewhile`
iterator), and join the remaining lines as the message. -/
def getCommit (store : Store) (oid : Str) : Except Str Commit :=
  match getObject store oid .commit with
  | .error e => .error e
  | .ok b =>
      let lines := splitlinesT (decodeB b)
      let headerLines := lines.takeWhile (fun l => !l.isEmpty)
      let msg := joinNl ((lines.dropWhile (fun l => !l.isEmpty)).drop 1)
      parseHeaders headerLines none [] msg

/-- Line parser for `base._iter_tree_entries`: split each line into
(type, oid, name) at the first two spaces (`split(' ', 2)`), failing with
ValueError on a line with fewer than two spaces. -/
def parseTreeLines : List Str → Except Str (List (Str × Str × Str))
  | [] => .ok []
  | l :: rest =>
    if containsC l ' ' then
      let ty := beforeFirst ' ' l
      let r1 := afterFirst ' ' l
      if containsC r1 ' ' then
        match parseTreeLines rest with
        | .error e => .error e
        | .ok es => .ok ((ty, beforeFirst ' ' r1, afterFirst ' ' r1) :: es)
      else .error (str "ValueError: not enough values to unpack")
    else .error (str "ValueError: not enough values to unpack")

/-- base._iter_tree_entries: an empty oid yields nothing; otherwise read the
tree object and parse its lines. -/
def iterTreeEntries (store : Store) (oid : Str) :
    Except Str (List (Str × Str × Str)) :=
  if oid.isEmpty then .ok []
  else
    match getObject store oid .tree with
    | .error e => .error e
    | .ok b => parseTreeLines (splitlinesT (decodeB b))

/-- base.iter_commits_and_parents, evaluated eagerly: the work deque starts
with the seeds; popping a new oid yields it, then the source pushes
`parents[:1]` to the front and `parents[:1]` to the back of the deque (both
slices take only the first parent, so later parents of a merge commit are
never enqueued).  One unit of fuel per loop iteration. -/
def iterCommitsAndParents (store : Store) :
    Nat → List Str → List Str → Except Str (List Str)
  | 0, _, _ => .error fuelOut
  | _ + 1, [], _ => .ok []
  | fuel + 1, oid :: rest, visited =>
    if oid.isEmpty || visited.contains oid then
      iterCommitsAndParents store fuel rest visited
    else
      match getCommit store oid with
      | .error e => .error e
      | .ok c =>
        match iterCommitsAndParents store fuel
            (c.parents.take 1 ++ rest ++ c.parents.take 1) (oid :: visited) with
        | .error e => .error e
        | .ok l => .ok (oid :: l)

/-- Depth-first walk behind `iter_objects_in_commits.iter_objects_in_tree`,
with the recursion stack made explicit: the state is a stack of frames, each
frame the not-yet-processed entries of one tree object.  Entering a subtree
marks it visited, yields it and pushes its entries as a new frame; a blob is
marked visited and yielded; already-visited oids are skipped.  One unit of
fuel per step. -/
def iterTreeLoop (store : Store) :
    Nat → List (List (Str × Str × Str)) → List Str →
      Except Str (List Str × List Str)
  | 0, _, _ => .error fuelOut
  | _ + 1, [], visited => .ok ([], visited)
  | fuel + 1, [] :: frames, visited => iterTreeLoop store fuel frames visited
  | fuel + 1, ((ty, oid, _) :: rest) :: frames, visited =>
    if visited.contains oid then
      iterTreeLoop store fuel (rest :: frames) visited
    else if ty = str "tree" then
      match iterTreeEntries store oid with
      | .error e => .error e
      | .ok entries =>
        match iterTreeLoop store fuel (entries :: rest :: frames)
            (oid :: visited) with
        | .error e => .error e
        | .ok (ys, vis) => .ok (oid :: ys, vis)
    else
      match iterTreeLoop store fuel (rest :: frames) (oid :: visited) with
      | .error e => .error e
      | .ok (ys, vis) => .ok (oid :: ys, vis)

/-- Generator `iter_objects_in_commits.iter_objects_in_tree` applied to one
tree oid: mark it visited, yield it, then walk its entries depth first. -/
def iterTreeObjects (store : Store) (fuel : Nat) (oid : Str)
    (visited : List Str) : Except Str (List Str × List Str) :=
  match iterTreeEntries store oid with
  | .error e => .error e
  | .ok entries =>
    match iterTreeLoop store fuel [entries] (oid :: visited) with
    | .error e => .error e
    | .ok (ys, vis) => .ok (oid :: ys, vis)

/-- Commit-loop of base.iter_objects_in_commits: yield each commit oid, and
when its tree has not been visited yet walk the tree's object closure. -/
def iterObjectsGo (store : Store) (fuel : Nat) :
    List Str → List Str → Except Str (List Str)
  | [], _ => .ok []
  | oid :: rest, visited =>
    match getCommit store oid with
    | .error e => .error e
    | .ok c =>
      if visited.contains c.tree then
        match iterObjectsGo store fuel rest visited with
        | .error e => .error e
        | .ok l => .ok (oid :: l)
      else
        match iterTreeObjects store fuel c.tree visited with
        | .error e => .error e
        | .ok (ys, vis) =>
          match iterObjectsGo store fuel rest vis with
          | .error e => .error e
          | .ok l => .ok (oid :: (ys ++ l))

/-- base.iter_objects_in_commits: every reachable commit (per
`iter_commits_and_parents`), each followed by its tree closure. -/
def iterObjectsInCommits (store : Store) (fuel : Nat) (oids : List Str) :
    Except Str (List Str) :=
  match iterCommitsAndParents store fuel oids [] with
  | .error e => .error e
  | .ok commits => iterObjectsGo store fuel commits []

/-- Bytes of a stored commit object with the given payload text. -/
def mkCommitBytes (text : Str) : Bytes := encodeT (str "commit") ++ 0 :: encodeT text

/-- Bytes of a stored tree object with the given payload text. -/
def mkTreeBytes (text : Str) : Bytes := encodeT (str "tree") ++ 0 :: encodeT text

/-- A store holding a merge commit `M` with parents `A` and `B` (in that
order), two root commits `A` and `B`, and their three empty trees. -/
def storeC1 : Store :=
  [(str "M", mkCommitBytes (str "tree TM\nparent A\nparent B\n\nmerge\n")),
   (str "A", mkCommitBytes (str "tree TA\n\na\n")),
   (str "B", mkCommitBytes (str "tree TB\n\nb\n")),
   (str "TM", mkTreeBytes (str "")),
   (str "TA", mkTreeBytes (str "")),
   (str "TB", mkTreeBytes (str ""))]

/-- A working-tree entry: a regular file with its contents, or a
subdirectory. -/
inductive FSEntry where
  | file (content : Bytes)
  | dir (entries : List (Str × FSEntry))

/-- Full state of one repository: the object store, the ref files under
`.ugit/`, and the working tree rooted at the repository directory. -/
structure Repo where
  objects : Store
  refs : Refs
  workdir : List (Str × FSEntry)

/-- base.is_ignored, reduced to one path component: the walks below never
descend into an ignored directory, so a path is ignored exactly when the
basename being examined is. -/
def ignoredName (n : Str) : Bool :=
  (n == str ".ugit") || (n == str ".git") || (n == str ".venv")

/-- Join a relative path and a basename (`os.path.relpath` applied to the
paths `os.walk` produces, with `/` separators). -/
def pathJoin (pre n : Str) : Str := if pre.isEmpty then n else pre ++ '/' :: n

/-- Work items of the explicit `os.walk` loop: a regular file to visit, or a
directory whose listing still has to be expanded. -/
inductive WalkItem where
  | fileItem (path : Str) (content : Bytes)
  | dirItem (path : Str) (entries : List (Str × FSEntry))

/-- Expand one directory listing the way `os.walk` reports it (top-down):
first the non-ignored regular files of the directory, then its non-ignored
subdirectories, each to be walked in turn. -/
def expandDir (pre : Str) (entries : List (Str × FSEntry)) : List WalkItem :=
  (entries.filterMap (fun e =>
    match e with
    | (n, .file c) =>
        if ignoredName n then none else some (WalkItem.fileItem (pathJoin pre n) c)
    | (_, .dir _) => none)) ++
  (entries.filterMap (fun e =>
    match e with
    | (n, .dir sub) =>
        if ignoredName n then none else some (WalkItem.dirItem (pathJoin pre n) sub)
    | (_, .file _) => none))

/-- Run the `os.walk('.')` file enumeration used by base.get_working_tree,
one unit of fuel per work item. -/
def walkGo : Nat → List WalkItem → Option (List (Str × Bytes))
  | 0, _ => none
  | _ + 1, [] => some []
  | fuel + 1, .fileItem p c :: rest => (walkGo fuel rest).map ((p, c) :: ·)
  | fuel + 1, .dirItem pre entries :: rest =>
      walkGo fuel (expandDir pre entries ++ rest)

/-- Hash every walked file with `data.hash_object` (writing each blob into
the store) and record `path → oid`, in walk order. -/
def hashFilesGo (sha1 : Bytes → Str) :
    List (Str × Bytes) → Store → Assoc Str × Store
  | [], store => ([], store)
  | (p, c) :: rest, store =>
      let r := hashObject sha1 store c .blob
      let q := hashFilesGo sha1 rest r.2
      ((p, r.1) :: q.1, q.2)

/-- base.get_working_tree: walk the working tree and hash every non-ignored
file via `data.hash_object` (which stores the blob), returning the
`path → oid` mapping and the object store after the call; `none` when the
walk fuel runs out. -/
def getWorkingTree (sha1 : Bytes → Str) (fuel : Nat) (st : Repo) :
    Option (Assoc Str × Store) :=
  (walkGo fuel [WalkItem.dirItem (str "") st.workdir]).map
    (fun files => hashFilesGo sha1 files st.objects)

/-- Deduplicate, keeping first occurrences (insertion order of the
`defaultdict` in diff.compare_trees). -/
def dedupFirstGo : List Str → List Str → List Str
  | _, [] => []
  | seen, x :: rest =>
      if seen.contains x then dedupFirstGo seen rest
      else x :: dedupFirstGo (x :: seen) rest

/-- diff.compare_trees specialised to three trees: every path of any input,
in first-appearance order, paired with its oid in each input. -/
def compareTrees3 (t1 t2 t3 : Assoc Str) :
    List (Str × Option Str × Option Str × Option Str) :=
  (dedupFirstGo [] (t1.map Prod.fst ++ t2.map Prod.fst ++ t3.map Prod.fst)).map
    (fun p => (p, lookupAssoc t1 p, lookupAssoc t2 p, lookupAssoc t3 p))

/-- diff.merge_trees: the loop body evaluates `data.hash_objects(...)`, but
`data.py` defines no attribute `hash_objects` (only `hash_object`), so the
first iteration raises AttributeError; only with no paths at all does the
function return its (empty) dict. -/
def mergeTrees (tb th t3 : Assoc Str) : Except Str (Assoc Str) :=
  match compareTrees3 tb th t3 with
  | [] => .ok []
  | _ :: _ =>
      .error (str "AttributeError: module ugit.data has no attribute hash_objects")

/-- Candidate refnames enumerated by data.iter_refs: `HEAD`, `MERGE_HEAD`,
then every ref file under `refs/`. -/
def iterRefsNames (refs : Refs) : List Str :=
  [str "HEAD", str "MERGE_HEAD"] ++
    (refs.map Prod.fst).filter (fun n => (str "refs/").isPrefixOf n)

/-- Resolution loop of data.iter_refs: keep the candidates matching the
prefix whose resolved value is truthy, as `refname → value` pairs. -/
def iterRefsGo (refs : Refs) (fuel : Nat) (pre : Str) (deref : Bool) :
    List Str → Except Str (Assoc Str)
  | [] => .ok []
  | n :: rest =>
    if pre.isPrefixOf n then
      match getRef refs fuel n deref with
      | none => .error fuelOut
      | some rv =>
        match rv.value with
        | some v =>
          if v.isEmpty then iterRefsGo refs fuel pre deref rest
          else
            match iterRefsGo refs fuel pre deref rest with
            | .error e => .error e
            | .ok l => .ok ((n, v) :: l)
        | none => iterRefsGo refs fuel pre deref rest
    else iterRefsGo refs fuel pre deref rest

/-- data.iter_refs collected into a dict, as remote._get_remote_refs does
(under the remote's repo context). -/
def getRemoteRefs (re : Repo) (fuel : Nat) (pre : Str) : Except Str (Assoc Str) :=
  iterRefsGo re.refs fuel pre true (iterRefsNames re.refs)

/-- base.is_ascestor_of: whether `maybe` appears among the commits reachable
from `commit`; comparing against Python `None` is always false. -/
def isAscestorOf (store : Store) (fuel : Nat) (commit : Str)
    (maybe : Option Str) : Except Str Bool :=
  match iterCommitsAndParents store fuel [commit] [] with
  | .error e => .error e
  | .ok l =>
      .ok (match maybe with
           | some a => l.contains a
           | none => false)

/-- data.push_object applied to each object id in turn: copy the local
object file into the remote store. -/
def pushObjects (lo : Store) : Store → List Str → Store × Except Str Unit
  | reSt, [] => (reSt, .ok ())
  | reSt, oid :: rest =>
    match lookupAssoc lo oid with
    | none => (reSt, .error (str "FileNotFoundError"))
    | some b => pushObjects lo ((oid, b) :: reSt) rest

/-- remote.push: list the remote refs, read the local ref, assert it is
truthy, then assert `not remote_refs or is_ascestor_of(local_ref,
remote_ref)` — the source tests the whole `remote_refs` dict (not the single
`remote_ref` entry), so any non-empty remote forces the ancestry test even
when the remote lacks `refname`.  On success, copy the missing reachable
objects and update the remote's ref.  Returns the remote repository state
and the outcome. -/
def push (fuel : Nat) (lo re : Repo) (refname : Str) : Repo × Except Str Unit :=
  match getRemoteRefs re fuel (str "") with
  | .error e => (re, .error e)
  | .ok remoteRefs =>
    let remoteRef := lookupAssoc remoteRefs refname
    match getRef lo.refs fuel refname true with
    | none => (re, .error fuelOut)
    | some rv =>
      match rv.value with
      | none => (re, .error (str "AssertionError: local ref missing"))
      | some localRef =>
        if localRef.isEmpty then (re, .error (str "AssertionError: local ref missing"))
        else
          match (if remoteRefs.isEmpty then Except.ok true
                 else isAscestorOf lo.objects fuel localRef remoteRef) with
          | .error e => (re, .error e)
          | .ok ff =>
            if !ff then (re, .error (str "AssertionError: not a fast-forward"))
            else
              let knowRemoteRefs :=
                (remoteRefs.map Prod.snd).filter (objectExists lo.objects)
              match iterObjectsInCommits lo.objects fuel knowRemoteRefs with
              | .error e => (re, .error e)
              | .ok remoteObjects =>
                match iterObjectsInCommits lo.objects fuel [localRef] with
                | .error e => (re, .error e)
                | .ok localObjects =>
                  let toPush :=
                    localObjects.filter (fun o => !remoteObjects.contains o)
                  match pushObjects lo.objects re.objects toPush with
                  | (reObjs, .error e) =>
                      ({ re with objects := reObjs }, .error e)
                  | (reObjs, .ok _) =>
                    let re1 := { re with objects := reObjs }
                    match updateRef re1.refs fuel refname
                        ⟨false, some localRef⟩ true with
                    | (refs2, r) => ({ re1 with refs := refs2 }, r)

/-- Local repository for the push scenario: one root commit `L`, the branch
`refs/heads/main` pointing at it. -/
def localC5 : Repo :=
  ⟨[(str "L", mkCommitBytes (str "tree TL\n\nx\n"))],
   [(str "refs/heads/main", str "L")], []⟩

/-- Remote repository for the push scenario: it has some other branch but
not `refs/heads/main`. -/
def remoteC5 : Repo := ⟨[], [(str "refs/heads/other", str "X")], []⟩

/-- Digest stand-in for concrete runs: the oid is `length` copies of `x`,
which separates the distinct objects arising in the examples. -/
def sha1test : Bytes → Str := fun b => List.replicate b.length 'x'

/-- Repository for the working-tree snapshot scenario: an empty object
store and a single tracked file. -/
def repoC9 : Repo := ⟨[], [], [(str "a.txt", FSEntry.file [104, 105])]⟩

/-- Python string comparison (code-point lexicographic). -/
def strLt : Str → Str → Bool
  | [], [] => false
  | [], _ :: _ => true
  | _ :: _, [] => false
  | a :: xs, b :: ys => if a = b then strLt xs ys else decide (a < b)

/-- Python tuple comparison on the `(name, oid, type)` entries that
base.write_tree sorts. -/
def entryLt (e1 e2 : Str × Str × Str) : Bool :=
  strLt e1.1 e2.1 ||
    (e1.1 == e2.1 && (strLt e1.2.1 e2.2.1 ||
      (e1.2.1 == e2.2.1 && strLt e1.2.2 e2.2.2)))

/-- Insertion step of a stable ascending sort by `entryLt`. -/
def insertSorted (e : Str × Str × Str) :
    List (Str × Str × Str) → List (Str × Str × Str)
  | [] => [e]
  | x :: rest => if entryLt e x then e :: x :: rest else x :: insertSorted e rest

/-- Python `sorted` on entry tuples (entry names are unique within a
directory, so any correct comparison sort gives the same list). -/
def sortEntries : List (Str × Str × Str) → List (Str × Str × Str)
  | [] => []
  | x :: rest => insertSorted x (sortEntries rest)

/-- Serialization of one tree object: the collected entries sorted, each
rendered as `type SP oid SP name LF`. -/
def renderTreeText (es : List (Str × Str × Str)) : Str :=
  ((sortEntries es).map
    (fun e => e.2.2 ++ ' ' :: e.2.1 ++ ' ' :: e.1 ++ ['\n'])).foldr (· ++ ·) []

/-- Body of base.write_tree made fuel-structural: scan a directory listing,
skipping ignored names, hashing files as blobs and recursing into
subdirectories (hashing each finished subdirectory as a tree object);
returns the `(name, oid, type)` entries in scan order with the store. -/
def writeTreeGo (sha1 : Bytes → Str) :
    Nat → List (Str × FSEntry) → Store →
      Option (List (Str × Str × Str) × Store)
  | 0, _, _ => none
  | _ + 1, [], store => some ([], store)
  | fuel + 1, (name, ent) :: rest, store =>
    if ignoredName name then writeTreeGo sha1 fuel rest store
    else
      match ent with
      | .file c =>
          let r := hashObject sha1 store c .blob
          (writeTreeGo sha1 fuel rest r.2).map
            (fun p => ((name, r.1, str "blob") :: p.1, p.2))
      | .dir sub =>
          match writeTreeGo sha1 fuel sub store with
          | none => none
          | some (es, s1) =>
            let r := hashObject sha1 s1 (encodeT (renderTreeText es)) .tree
            (writeTreeGo sha1 fuel rest r.2).map
              (fun p => ((name, r.1, str "tree") :: p.1, p.2))

/-- base.write_tree on a directory listing: collect the entries, then hash
the serialized tree. -/
def writeTree (sha1 : Bytes → Str) (fuel : Nat)
    (entries : List (Str × FSEntry)) (store : Store) : Option (Str × Store) :=
  (writeTreeGo sha1 fuel entries store).map
    (fun p => hashObject sha1 p.2 (encodeT (renderTreeText p.1)) .tree)

/-- base.commit: write the working tree, build the header `tree <oid>`,
append `parent <HEAD>` when HEAD resolves to a truthy oid.  When MERGE_HEAD
is truthy the source appends `parent <M>` followed by a stray `)` and then
calls `data.delete_ref`, which evaluates `GIT_DIR / \x7bref\x7d` and raises
TypeError before removing anything — so the run stops there with the store
already containing the tree and blob objects, no commit object stored, and
MERGE_HEAD still present.  Otherwise the source appends `'\n'` and then
`'\n' + message + '\n'` (two blank-line separators), stores the commit and
updates HEAD (dereferenced). -/
def commitFn (sha1 : Bytes → Str) (fuel : Nat) (st : Repo) (message : Str) :
    Repo × Except Str Str :=
  match writeTree sha1 fuel st.workdir st.objects with
  | none => (st, .error fuelOut)
  | some (treeOid, s1) =>
    let st1 : Repo := { st with objects := s1 }
    match getRef st1.refs fuel (str "HEAD") true with
    | none => (st1, .error fuelOut)
    | some hv =>
      let text0 := str "tree " ++ treeOid ++ str "\n"
      let text1 :=
        match hv.value with
        | some h =>
            if h.isEmpty then text0 else text0 ++ str "parent " ++ h ++ str "\n"
        | none => text0
      match getRef st1.refs fuel (str "MERGE_HEAD") true with
      | none => (st1, .error fuelOut)
      | some mv =>
        if truthyO mv.value then
          (st1, .error (str "TypeError: unsupported operand for /: str and set"))
        else
          let text := text1 ++ str "\n" ++ str "\n" ++ message ++ str "\n"
          let r := hashObject sha1 st1.objects (encodeT text) .commit
          let st2 : Repo := { st1 with objects := r.2 }
          match updateRef st2.refs fuel (str "HEAD") ⟨false, some r.1⟩ true with
          | (refs2, .ok _) => ({ st2 with refs := refs2 }, .ok r.1)
          | (refs2, .error e) => ({ st2 with refs := refs2 }, .error e)

/-- Repository for the commit-message scenario: no refs yet (first commit),
one tracked file. -/
def repoC6 : Repo := ⟨[], [], [(str "a.txt", FSEntry.file [104, 105])]⟩

/-- Repository for the commit-after-merge scenario: HEAD is a direct oid
and MERGE_HEAD is set, as `merge` leaves it on the non-fast-forward path. -/
def repoC7 : Repo :=
  ⟨[], [(str "HEAD", List.replicate 40 'c'),
        (str "MERGE_HEAD", List.replicate 40 'b')],
   [(str "a.txt", FSEntry.file [104])]⟩

/-- Generic split of a text at a separator character. -/
def splitCharAux (c : Char) : Str → Str → List Str
  | [], acc => [acc.reverse]
  | x :: rest, acc =>
      if x = c then acc.reverse :: splitCharAux c rest []
      else splitCharAux c rest (x :: acc)

/-- Path components of a working-tree path produced by `get_tree` with base
`./`, dropping the leading `.` component (`os.makedirs` + `open` on the
path `./a/b` create the directory `a` and the file `b` inside it). -/
def pathComps (p : Str) : List Str :=
  (splitCharAux '/' p []).filter (fun s => !(s == str "."))

/-- Replace the first binding of `name` in a directory listing, appending
when absent (creating a new file or directory). -/
def setEntry : List (Str × FSEntry) → Str → FSEntry → List (Str × FSEntry)
  | [], name, e => [(name, e)]
  | (n, old) :: rest, name, e =>
      if n = name then (name, e) :: rest else (n, old) :: setEntry rest name e

/-- Write a file at a component path inside the working tree, creating the
intermediate directories (and replacing a non-directory in the way, as
`os.makedirs` + `open` would effectively do on a fresh tree). -/
def insertFile : List Str → List (Str × FSEntry) → Bytes → List (Str × FSEntry)
  | [], entries, _ => entries
  | [name], entries, c => setEntry entries name (.file c)
  | name :: comp2 :: comps, entries, c =>
    match lookupAssoc entries name with
    | some (.dir sub) =>
        setEntry entries name (.dir (insertFile (comp2 :: comps) sub c))
    | _ => setEntry entries name (.dir (insertFile (comp2 :: comps) [] c))

/-- base.get_tree loop: flatten the entries of a tree object, asserting each
name is a plain component, recording blobs and recursing into subtrees.
One unit of fuel per entry. -/
def getTreeGo (store : Store) :
    Nat → List (Str × Str × Str) → Str → Except Str (Assoc Str)
  | 0, _, _ => .error fuelOut
  | _ + 1, [], _ => .ok []
  | fuel + 1, (ty, oid, name) :: rest, basePath =>
    if containsC name '/' then .error (str "AssertionError: name contains /")
    else if (name == str "..") || (name == str ".") then
      .error (str "AssertionError: bad name")
    else
      let path := basePath ++ name
      if ty = str "blob" then
        match getTreeGo store fuel rest basePath with
        | .error e => .error e
        | .ok m => .ok ((path, oid) :: m)
      else if ty = str "tree" then
        match iterTreeEntries store oid with
        | .error e => .error e
        | .ok entries =>
          match getTreeGo store fuel entries (path ++ str "/") with
          | .error e => .error e
          | .ok sub =>
            match getTreeGo store fuel rest basePath with
            | .error e => .error e
            | .ok m => .ok (sub ++ m)
      else .error (str "AssertionError: Unknown tree entry type: " ++ ty)

/-- base.get_tree: flatten a tree object into `path → oid`. -/
def getTree (store : Store) (fuel : Nat) (oid : Str) (basePath : Str) :
    Except Str (Assoc Str) :=
  match iterTreeEntries store oid with
  | .error e => .error e
  | .ok entries => getTreeGo store fuel entries basePath

/-- base._empty_current_directory: delete every non-ignored file, then
remove directories that became empty, keeping a directory that still holds
ignored entries (`os.rmdir` fails and the failure is tolerated).  `none`
when the fuel runs out. -/
def cleanDirGo : Nat → List (Str × FSEntry) → Option (List (Str × FSEntry))
  | 0, _ => none
  | _ + 1, [] => some []
  | fuel + 1, (n, .file c) :: rest =>
      if ignoredName n then (cleanDirGo fuel rest).map ((n, .file c) :: ·)
      else cleanDirGo fuel rest
  | fuel + 1, (n, .dir sub) :: rest =>
      if ignoredName n then (cleanDirGo fuel rest).map ((n, .dir sub) :: ·)
      else
        match cleanDirGo fuel sub with
        | none => none
        | some sub2 =>
          if sub2.isEmpty then cleanDirGo fuel rest
          else (cleanDirGo fuel rest).map ((n, .dir sub2) :: ·)

/-- File-writing loop of base.read_tree: fetch each blob and write it at
its path, stopping at the first failure with the files so far written. -/
def writeFilesGo (store : Store) :
    List (Str × Str) → List (Str × FSEntry) →
      List (Str × FSEntry) × Except Str Unit
  | [], es => (es, .ok ())
  | (p, o) :: rest, es =>
    match getObject store o .blob with
    | .error e => (es, .error e)
    | .ok c => writeFilesGo store rest (insertFile (pathComps p) es c)

/-- base.read_tree: empty the working directory, flatten the tree with base
`./`, then write every blob. -/
def readTree (fuel : Nat) (st : Repo) (oid : Str) : Repo × Except Str Unit :=
  match cleanDirGo fuel st.workdir with
  | none => (st, .error fuelOut)
  | some wd =>
    let st1 : Repo := { st with workdir := wd }
    match getTree st1.objects fuel oid (str "./") with
    | .error e => (st1, .error e)
    | .ok m =>
      match writeFilesGo st1.objects m st1.workdir with
      | (wd2, r) => ({ st1 with workdir := wd2 }, r)

/-- base.read_tree_merged: empty the working directory and flatten the
three trees, then call `diff.merge_trees(get_tree(t_base), get_tree(t_HEAD),
get_tree(t_other).items())`.  `compare_trees` immediately invokes `.items()`
on that `dict_items` argument, raising AttributeError (and the merge_trees
loop body would raise AttributeError on the nonexistent `data.hash_objects`
anyway), so the call always fails after the directory has been emptied;
only the working directory is ever modified. -/
def readTreeMerged (fuel : Nat) (st : Repo) (tb th t3 : Str) :
    Repo × Except Str Unit :=
  match cleanDirGo fuel st.workdir with
  | none => (st, .error fuelOut)
  | some wd =>
    let st1 : Repo := { st with workdir := wd }
    match getTree st1.objects fuel tb (str "") with
    | .error e => (st1, .error e)
    | .ok _ =>
      match getTree st1.objects fuel th (str "") with
      | .error e => (st1, .error e)
      | .ok _ =>
        match getTree st1.objects fuel t3 (str "") with
        | .error e => (st1, .error e)
        | .ok _ =>
            (st1,
              .error (str "AttributeError: dict_items object has no attribute items"))

/-- base.get_merge_base: the first oid reachable from `o2` that is also
reachable from `o1`; `none` when the histories are disjoint. -/
def getMergeBase (store : Store) (fuel : Nat) (o1 o2 : Str) :
    Except Str (Option Str) :=
  match iterCommitsAndParents store fuel [o1] [] with
  | .error e => .error e
  | .ok l1 =>
    match iterCommitsAndParents store fuel [o2] [] with
    | .error e => .error e
    | .ok l2 => .ok (l2.find? (fun o => l1.contains o))

/-- base.merge: read HEAD (assert truthy), compute the merge base and parse
`other`.  When the base equals HEAD, fast-forward: read `other`'s tree and
point HEAD at `other`.  Otherwise set MERGE_HEAD to `other` (a plain ref
write), parse the base (`get_commit(None)` on a disjoint history raises
FileNotFoundError) and HEAD commits, and merge the trees into the working
directory. -/
def merge (fuel : Nat) (st : Repo) (other : Str) : Repo × Except Str Unit :=
  match getRef st.refs fuel (str "HEAD") true with
  | none => (st, .error fuelOut)
  | some hv =>
    match hv.value with
    | none => (st, .error (str "AssertionError"))
    | some HEAD =>
      if HEAD.isEmpty then (st, .error (str "AssertionError"))
      else
        match getMergeBase st.objects fuel other HEAD with
        | .error e => (st, .error e)
        | .ok mbase =>
          match getCommit st.objects other with
          | .error e => (st, .error e)
          | .ok cOther =>
            if mbase = some HEAD then
              match readTree fuel st cOther.tree with
              | (st1, .error e) => (st1, .error e)
              | (st1, .ok _) =>
                match updateRef st1.refs fuel (str "HEAD")
                    ⟨false, some other⟩ true with
                | (refs2, r) => ({ st1 with refs := refs2 }, r)
            else
              match updateRef st.refs fuel (str "MERGE_HEAD")
                  ⟨false, some other⟩ true with
              | (refs2, .error e) => ({ st with refs := refs2 }, .error e)
              | (refs2, .ok _) =>
                let st1 : Repo := { st with refs := refs2 }
                match mbase with
                | none => (st1, .error (str "FileNotFoundError"))
                | some mb =>
                  match getCommit st1.objects mb with
                  | .error e => (st1, .error e)
                  | .ok cBase =>
                    match getCommit st1.objects HEAD with
                    | .error e => (st1, .error e)
                    | .ok cHEAD =>
                        readTreeMerged fuel st1 cBase.tree cHEAD.tree cOther.tree

/-- Repository for the merge scenario: HEAD points (directly) at the root
commit `H`; the unrelated root commit `O` is the merge source, so the merge
base is `None` and the merge takes the non-fast-forward path. -/
def repoC10 : Repo :=
  ⟨[(str "H", mkCommitBytes (str "tree TH\n\nh\n")),
    (str "O", mkCommitBytes (str "tree TO\n\no\n"))],
   [(str "HEAD", str "H")], []⟩

/-- Lookup after a fresh write finds the written value. -/
theorem lookup_cons_self {α : Type} (k : Str) (v : α) (l : Assoc α) :
    lookupAssoc ((k, v) :: l) k = some v := by
  simp [lookupAssoc]

/-- Splitting at the first NUL undoes prepending a NUL-free prefix. -/
theorem partNul_append (pre rest : Bytes) (h : ∀ b ∈ pre, b ≠ 0) :
    partNul (pre ++ 0 :: rest) = (pre, rest) := by
  induction pre with
  | nil => simp [partNul]
  | cons b bs ih =>
      have hb : b ≠ 0 := h b (by simp)
      simp [partNul, hb, ih (fun x hx => h x (by simp [hx]))]

/-- No kind tag contains a NUL byte. -/
theorem kind_no_nul (k : Kind) : ∀ b ∈ encodeT (kindStr k), b ≠ 0 := by
  cases k <;> decide

/-- Decoding a kind tag returns the tag. -/
theorem kind_decode (k : Kind) : decodeB (encodeT (kindStr k)) = kindStr k := by
  cases k <;> decide

/-- C2: for every payload and kind, `hash_object` followed by `get_object`
with the same kind returns exactly the payload, the bytes stored at
`objects/<oid>` are the kind tag, a NUL byte, then the payload, and those
bytes digest to the oid. -/
theorem hash_object_get_object_roundtrip (sha1 : Bytes → Str) (store : Store)
    (payload : Bytes) (k : Kind) :
    getObject (hashObject sha1 store payload k).2
        (hashObject sha1 store payload k).1 k = .ok payload ∧
    lookupAssoc (hashObject sha1 store payload k).2
        (hashObject sha1 store payload k).1
      = some (encodeT (kindStr k) ++ 0 :: payload) ∧
    sha1 (encodeT (kindStr k) ++ 0 :: payload)
      = (hashObject sha1 store payload k).1 := by
  refine ⟨?_, ?_, rfl⟩
  · simp [getObject, hashObject, lookup_cons_self,
      partNul_append _ _ (kind_no_nul k), kind_decode]
  · simp [hashObject, lookup_cons_self]

/-- A pair of ref files forming a symbolic cycle of length one:
the file `A` holds `ref: A`. -/
def cycleRefs : Refs := [(str "A", str "ref: A")]

/-- C4: on a cyclic symbolic chain, `_get_ref_internal` (hence `get_ref`)
recurses without bound: no amount of fuel makes it return, and it never
produces a `RefCycle` failure — the source has no depth check at all. -/
theorem get_ref_cycle_diverges :
    ∀ fuel : Nat, getRefInternal cycleRefs fuel (str "A") true = none := by
  intro fuel
  induction fuel with
  | zero => rfl
  | succ n ih => exact ih

/-- A repository state whose only ref is a branch stored at
`refs/heads/foo`. -/
def branchRefs : Refs := [(str "refs/heads/foo", List.replicate 40 'a')]

/-- C3: with a branch stored only at `refs/heads/foo`, the resolver fails
with `Unknown name` instead of returning the branch oid — the candidate
list in the source repeats `refs/tags/<name>` and never tries
`refs/heads/<name>`, even though `get_ref` would resolve that branch. -/
theorem get_oid_misses_branch :
    getOid branchRefs 9 (str "foo")
        = .error (str "AssertionError: Unknown name: foo") ∧
    getRef branchRefs 9 (str "refs/heads/foo") true
        = some ⟨false, some (List.replicate 40 'a')⟩ := by
  constructor
  · decide
  · decide

/-- C1: in `storeC1` the commit `M` is a merge commit whose parsed parents
are `[A, B]`, yet `iter_objects_in_commits(\x7bM\x7d)` yields only `M`, its
tree, the first parent `A` and `A`'s tree: the ancestor commit `B` (and its
tree) reachable through the second parent edge is omitted, because the
traversal enqueues `parents[:1]` twice instead of the remaining parents. -/
theorem iter_objects_misses_second_parent :
    (getCommit storeC1 (str "M")).map Commit.parents
        = .ok [str "A", str "B"] ∧
    iterObjectsInCommits storeC1 32 [str "M"]
        = .ok [str "M", str "TM", str "A", str "TA"] ∧
    (str "B") ∉ [str "M", str "TM", str "A", str "TA"] := by
  refine ⟨by decide, by decide, by decide⟩

/-- C5: pushing `refs/heads/main` (which exists locally) to a remote that
has some other ref but not `refs/heads/main` fails with the fast-forward
assertion and leaves the remote unchanged, although the claim says such a
push must succeed: the source asserts `not remote_refs or
is_ascestor_of(local_ref, remote_ref)`, testing the whole dict instead of
the single entry, and `is_ascestor_of(local_ref, None)` is false. -/
theorem push_rejects_new_ref_on_nonempty_remote :
    push 16 localC5 remoteC5 (str "refs/heads/main")
        = (remoteC5, .error (str "AssertionError: not a fast-forward")) ∧
    lookupAssoc remoteC5.refs (str "refs/heads/main") = none ∧
    getRef localC5.refs 9 (str "refs/heads/main") true
        = some ⟨false, some (str "L")⟩ := by
  refine ⟨rfl, by decide, by decide⟩

/-- C6: committing the message `hello` on a fresh repository stores a
commit payload `tree <oid>` followed by TWO blank lines before the message
(the source appends `'\n'` and then `'\n' + message + '\n'`), and
`get_commit` returns the message `\nhello` — the message is not recovered
verbatim, and the payload does not contain exactly one blank separator
line. -/
theorem commit_message_not_verbatim :
    (commitFn sha1test 9 repoC6 (str "hello")).2
        = .ok (List.replicate 45 'x') ∧
    lookupAssoc (commitFn sha1test 9 repoC6 (str "hello")).1.objects
        (List.replicate 45 'x')
      = some (mkCommitBytes
          (str "tree " ++ List.replicate 24 'x' ++ str "\n\n\nhello\n")) ∧
    (getCommit (commitFn sha1test 9 repoC6 (str "hello")).1.objects
        (List.replicate 45 'x')).map Commit.message
      = .ok ('\n' :: str "hello") ∧
    ('\n' :: str "hello") ≠ str "hello" := by
  refine ⟨by decide, by decide, by decide, by decide⟩

/-- C7: with MERGE_HEAD set (as the non-fast-forward `merge` leaves it),
the next `commit` raises TypeError out of `delete_ref`'s malformed f-string
before storing any commit object or touching any ref: no commit with
parents `[HEAD_before, other]` is produced and MERGE_HEAD is not deleted.
(The header text the source had built also carries a stray `)` from
`f'parent ...\n)'`, which `get_commit` would reject.) -/
theorem commit_after_merge_raises :
    (commitFn sha1test 9 repoC7 (str "m")).2
        = .error (str "TypeError: unsupported operand for /: str and set") ∧
    (commitFn sha1test 9 repoC7 (str "m")).1.refs = repoC7.refs ∧
    lookupAssoc (commitFn sha1test 9 repoC7 (str "m")).1.refs
        (str "MERGE_HEAD") = some (List.replicate 40 'b') := by
  refine ⟨by decide, by decide, by decide⟩

/-- C8: `merge_trees` does not return merged blob bytes for the union of
paths: as soon as any input tree has a path, the first loop iteration
evaluates the nonexistent `data.hash_objects` and raises AttributeError
(only three empty inputs avoid the call). -/
theorem merge_trees_attribute_error :
    mergeTrees [] [(str "a", str "o1")] []
        = .error (str "AttributeError: module ugit.data has no attribute hash_objects") ∧
    mergeTrees [] [] [] = .ok [] := by
  exact ⟨rfl, rfl⟩

/-- C9 counterexample: on a repository whose object store is empty and whose
working tree has the single file `a.txt`, `get_working_tree` returns the
snapshot but the object store afterwards contains the file's blob object —
it is not identical to the store before the call, contradicting the claim
that the snapshot is computed without writing to the object store. -/
theorem get_working_tree_writes_counterexample :
    getWorkingTree sha1test 9 repoC9
        = some ([(str "a.txt", List.replicate 7 'x')],
            [(List.replicate 7 'x', encodeT (str "blob") ++ 0 :: [104, 105])]) ∧
    repoC9.objects = [] ∧
    (getWorkingTree sha1test 9 repoC9).map Prod.snd ≠ some repoC9.objects := by
  refine ⟨by decide, rfl, by decide⟩

/-- Hashing a list of files only prepends new blob objects to the store. -/
theorem hashFilesGo_extends (sha1 : Bytes → Str) (files : List (Str × Bytes)) :
    ∀ store : Store, ∃ added : Store,
      (hashFilesGo sha1 files store).2 = added ++ store := by
  induction files with
  | nil => exact fun store => ⟨[], rfl⟩
  | cons f rest ih =>
      intro store
      obtain ⟨p, c⟩ := f
      obtain ⟨a, ha⟩ :=
        ih ((sha1 (encodeT (kindStr .blob) ++ 0 :: c),
             encodeT (kindStr .blob) ++ 0 :: c) :: store)
      exact ⟨a ++ [(sha1 (encodeT (kindStr .blob) ++ 0 :: c),
               encodeT (kindStr .blob) ++ 0 :: c)],
        by simpa [hashFilesGo, hashObject] using ha⟩

/-- C9 (amended): `get_working_tree` computes the path → oid snapshot but
does write to the object store: the store after the call is the store
before the call with the blob object of each hashed file prepended; no
existing entry is removed or altered. -/
theorem get_working_tree_extends_store (sha1 : Bytes → Str) (fuel : Nat)
    (st : Repo) (res : Assoc Str × Store)
    (h : getWorkingTree sha1 fuel st = some res) :
    ∃ added : Store, res.2 = added ++ st.objects := by
  match hw : walkGo fuel [WalkItem.dirItem (str "") st.workdir] with
  | none => simp [getWorkingTree, hw] at h
  | some files =>
      have hres : res = hashFilesGo sha1 files st.objects := by
        simpa [getWorkingTree, hw] using h.symm
      exact hres ▸ hashFilesGo_extends sha1 files st.objects

/-- Lookup skips a fresh write at a different key. -/
theorem lookup_cons_ne {α : Type} (k : Str) (v : α) (l : Assoc α) (key : Str)
    (h : k ≠ key) : lookupAssoc ((k, v) :: l) key = lookupAssoc l key := by
  simp [lookupAssoc, h]

/-- read_tree_merged only touches the working directory: refs and object
store are returned unchanged. -/
theorem readTreeMerged_fields (fuel : Nat) (st : Repo) (tb th t3 : Str) :
    (readTreeMerged fuel st tb th t3).1.refs = st.refs ∧
    (readTreeMerged fuel st tb th t3).1.objects = st.objects := by
  unfold readTreeMerged
  cases cleanDirGo fuel st.workdir with
  | none => exact ⟨rfl, rfl⟩
  | some wd =>
    dsimp only
    split
    · exact ⟨rfl, rfl⟩
    · split
      · exact ⟨rfl, rfl⟩
      · split
        · exact ⟨rfl, rfl⟩
        · exact ⟨rfl, rfl⟩

/-- C10: whenever `merge` takes the non-fast-forward path (HEAD resolves to
a truthy oid and the merge base, when computed, differs from it), every ref
file other than MERGE_HEAD — in particular the HEAD ref file — and the
whole object store are unchanged by `merge` itself; the hypothesis on
MERGE_HEAD says its ref file, if present, is not symbolic (which is the
only way the program ever writes it), so the MERGE_HEAD update cannot be
redirected onto another ref. -/
theorem merge_nonff_preserves_HEAD
    (fuel : Nat) (st : Repo) (other HEAD : Str) (sym : Bool)
    (h1 : getRef st.refs fuel (str "HEAD") true = some ⟨sym, some HEAD⟩)
    (h3 : HEAD.isEmpty = false)
    (hmb : ∀ mb, getMergeBase st.objects fuel other HEAD = .ok mb →
        mb ≠ some HEAD)
    (hM : ∀ p, getRefInternal st.refs fuel (str "MERGE_HEAD") true = some p →
        p.1 = str "MERGE_HEAD") :
    (∀ r : Str, r ≠ str "MERGE_HEAD" →
        lookupAssoc (merge fuel st other).1.refs r = lookupAssoc st.refs r) ∧
    (merge fuel st other).1.objects = st.objects := by
  unfold merge
  rw [h1]
  simp only [h3, Bool.false_eq_true, if_false]
  cases hgm : getMergeBase st.objects fuel other HEAD with
  | error e => exact ⟨fun r _ => rfl, rfl⟩
  | ok mb =>
    dsimp only
    cases hgc : getCommit st.objects other with
    | error e => exact ⟨fun r _ => rfl, rfl⟩
    | ok cOther =>
      dsimp only
      rw [if_neg (hmb mb hgm)]
      unfold updateRef
      cases hgr : getRefInternal st.refs fuel (str "MERGE_HEAD") true with
      | none => exact ⟨fun r _ => rfl, rfl⟩
      | some p =>
        dsimp only
        have hp : p.1 = str "MERGE_HEAD" := hM p hgr
        by_cases ho : other.isEmpty
        · rw [if_pos ho]
          exact ⟨fun r _ => rfl, rfl⟩
        · rw [if_neg ho]
          dsimp only
          rw [show (if (false = true) then str "ref: " ++ other else other)
              = other from rfl]
          have hlk : ∀ r : Str, r ≠ str "MERGE_HEAD" →
              lookupAssoc ((p.1, other) :: st.refs) r = lookupAssoc st.refs r := by
            intro r hr
            rw [hp]
            exact lookup_cons_ne _ _ _ _ (fun he => hr he.symm)
          cases mb with
          | none => exact ⟨hlk, rfl⟩
          | some mbv =>
            dsimp only
            cases getCommit st.objects mbv with
            | error e => exact ⟨hlk, rfl⟩
            | ok cBase =>
              dsimp only
              cases getCommit st.objects HEAD with
              | error e => exact ⟨hlk, rfl⟩
              | ok cHEAD =>
                dsimp only
                have hfields := readTreeMerged_fields fuel
                  { st with refs := (p.1, other) :: st.refs }
                  cBase.tree cHEAD.tree cOther.tree
                exact ⟨fun r hr => by rw [hfields.1]; exact hlk r hr,
                  hfields.2⟩

/-- C10 witness: on the concrete repository `repoC10`, merging the
unrelated commit `O` takes the non-fast-forward path and leaves the HEAD
ref file and the object store unchanged. -/
theorem merge_nonff_preserves_HEAD_witness :
    lookupAssoc (merge 9 repoC10 (str "O")).1.refs (str "HEAD")
        = lookupAssoc repoC10.refs (str "HEAD") ∧
    (merge 9 repoC10 (str "O")).1.objects = repoC10.objects := by
  have h := merge_nonff_preserves_HEAD 9 repoC10 (str "O") (str "H") false
    (by decide) (by decide)
    (fun mb hmb => by
      have hc : getMergeBase repoC10.objects 9 (str "O") (str "H")
          = .ok none := by decide
      rw [hc] at hmb
      injection hmb with hmb2
      rw [← hmb2]
      simp)
    (fun p hp => by
      have hc : getRefInternal repoC10.refs 9 (str "MERGE_HEAD") true
          = some (str "MERGE_HEAD", ⟨false, none⟩) := by decide
      rw [hc] at hp
      injection hp with hp2
      rw [← hp2])
  exact ⟨h.1 (str "HEAD") (by decide), h.2⟩

/-- C9 witness: the amended statement instantiated on the concrete
single-file repository. -/
theorem get_working_tree_extends_store_witness :
    ∃ added : Store,
      ([(str "a.txt", List.replicate 7 'x')],
        ([(List.replicate 7 'x', encodeT (str "blob") ++ 0 :: [104, 105])] :
          Store)).2 = added ++ repoC9.objects :=
  get_working_tree_extends_store sha1test 9 repoC9
    ([(str "a.txt", List.replicate 7 'x')],
      [(List.replicate 7 'x', encodeT (str "blob") ++ 0 :: [104, 105])])
    (by decide)

end UGit
